import Mathlib

/-!
A shallow embedding of the two core components of the `jsnake` repository:

* `src/jsnake/signals.py` — the `signal` class (observer pattern with bound
  extra arguments): `connect`, `disconnect`, `emit`.
* `src/jsnake/utils.py` — `binary_search` over an ascending sequence.

Python values (functions, objects, argument values, owners) are drawn from a
single abstract type `α` with decidable equality; the Python builtin
`callable` predicate is an explicit parameter `c : α → Bool`.  Keyword
dictionaries are association lists in insertion order.  Fallible operations
(`list.remove`, sequence indexing) return `Option`/`Except`, with `none` /
`Except.error` standing for a raised Python exception.
-/

namespace JSnake

/-- Keyword-argument dictionaries (Python `dict[str, Any]`), modelled as
association lists kept in insertion order. -/
abbrev Kw (α : Type) : Type := List (String × α)

/-- Python `d[k]` lookup: the value at the first (and, for genuine dicts,
only) entry whose key is `k`. -/
def dictLookup {α : Type} (d : Kw α) (k : String) : Option α :=
  (d.find? (fun p => p.1 == k)).map (fun p => p.2)

/-- Python `d[k] = v`: overwrite the entry for `k` in place if the key is
present, otherwise append a new entry. -/
def dictSet {α : Type} (d : Kw α) (k : String) (v : α) : Kw α :=
  if d.any (fun p => p.1 == k) then
    d.map (fun p => if p.1 == k then (k, v) else p)
  else
    d ++ [(k, v)]

/-- Python `d.update(e)`: set every key of `e`, in `e`'s insertion order. -/
def dictUpdate {α : Type} (d e : Kw α) : Kw α :=
  e.foldl (fun acc p => dictSet acc p.1 p.2) d

/-- Python `d == e` on dicts: extensional equality of the key → value
mappings (insertion order is irrelevant to dict equality). -/
def dictEqv {α : Type} [DecidableEq α] (d e : Kw α) : Bool :=
  d.all (fun p => decide (dictLookup e p.1 = dictLookup d p.1)) &&
  e.all (fun p => decide (dictLookup d p.1 = dictLookup e p.1))

/-- An entry of `signal.observers`: either a signal bind — the tuple
`(fn, args, kw)` built by `signal._form_signal_bind` for a callable
subscriber — or a raw (non-callable) observer object. -/
inductive Obv (α : Type) : Type where
  | bind (fn : α) (args : List α) (kw : Kw α)
  | obj (o : α)
  deriving Repr, DecidableEq

/-- `signal._form_signal_bind(fn, *args, **kw)`: returns the tuple
`(fn, args, kw)`. -/
def _form_signal_bind {α : Type} (fn : α) (args : List α) (kw : Kw α) : Obv α :=
  Obv.bind fn args kw

/-- Python `==` between stored observer entries, as used by
`list.remove` in `signal.disconnect`: binds (tuples) compare componentwise,
with dict equality on the keyword component; a tuple never equals a
non-tuple observer object; objects compare by their own equality. -/
def obvBeq {α : Type} [DecidableEq α] : Obv α → Obv α → Bool
  | Obv.bind f a k, Obv.bind f' a' k' =>
      decide (f = f') && decide (a = a') && dictEqv k k'
  | Obv.obj o, Obv.obj o' => decide (o = o')
  | _, _ => false

/-- The state of a `signal` instance: its `__slots__` are
`name`, `observers`, `observer_count` and `obj` (the owner). -/
structure SignalState (α : Type) : Type where
  name : String
  obj : α
  observers : List (Obv α)
  observer_count : Int
  deriving Repr, DecidableEq

/-- `signal.__init__(name, obj)` with an explicit owner: empty observer
list and zero count.  (When `obj` is omitted the constructor merely picks a
default owner value by call-stack introspection; the choice of owner value
is orthogonal to the claims and is taken as given here.) -/
def signal_init {α : Type} (name : String) (obj : α) : SignalState α :=
  ⟨name, obj, [], 0⟩

/-- `signal.connect(obj_or_func, *binds, **kw)`: if `obj_or_func` is
callable, append the signal bind `(obj_or_func, binds, kw)`; otherwise
append the object itself.  In both cases increment `observer_count`.
No validation of any kind is performed and nothing is raised. -/
def connect {α : Type} (c : α → Bool) (s : SignalState α) (obj_or_func : α)
    (binds : List α) (kw : Kw α) : SignalState α :=
  let observers :=
    if c obj_or_func then
      s.observers ++ [_form_signal_bind obj_or_func binds kw]
    else
      s.observers ++ [Obv.obj obj_or_func]
  { s with observers := observers, observer_count := s.observer_count + 1 }

/-- Errors raised by the `signal` methods.  `valueError` is the Python
`ValueError` raised by `list.remove` when the value is not in the list. -/
inductive SigError : Type where
  | valueError
  deriving Repr, DecidableEq

/-- Python `list.remove(x)`: delete the first element equal to `x`,
`none` (= a raised `ValueError`) if no element is equal to `x`. -/
def removeFirst {α : Type} [DecidableEq α] (x : Obv α) :
    List (Obv α) → Option (List (Obv α))
  | [] => none
  | y :: ys =>
      if obvBeq y x then some ys
      else (removeFirst x ys).map (fun l => y :: l)

/-- `signal.disconnect(obj_or_func, *binds, **kw)`: form the same entry as
`connect` would and `list.remove` it.  When `remove` raises, the exception
propagates before `observer_count -= 1` runs, so the state is unchanged. -/
def disconnect {α : Type} [DecidableEq α] (c : α → Bool) (s : SignalState α)
    (obj_or_func : α) (binds : List α) (kw : Kw α) :
    Except SigError (SignalState α) :=
  let target :=
    if c obj_or_func then _form_signal_bind obj_or_func binds kw
    else Obv.obj obj_or_func
  match removeFirst target s.observers with
  | none => Except.error SigError.valueError
  | some observers =>
      Except.ok { s with observers := observers,
                         observer_count := s.observer_count - 1 }

/-- One call made by `signal.emit`: either `fn(owner, *args, **kw)` for a
signal bind (the owner is the first positional argument, `args` the
remaining ones), or `o.on_notify(name, owner, *args, **kw)` for an
observer object. -/
inductive Call (α : Type) : Type where
  | callFn (fn : α) (firstArg : α) (args : List α) (kw : Kw α)
  | notify (o : α) (sigName : String) (ownerArg : α) (args : List α) (kw : Kw α)
  deriving Repr, DecidableEq

/-- The subscriber a stored observer entry refers to. -/
def Obv.sub {α : Type} : Obv α → α
  | Obv.bind fn _ _ => fn
  | Obv.obj o => o

/-- The subscriber a call is delivered to. -/
def Call.sub {α : Type} : Call α → α
  | Call.callFn fn _ _ _ => fn
  | Call.notify o _ _ _ _ => o

/-- The owner value passed in a call (the first positional argument of a
bind call, the second argument of an `on_notify` call). -/
def Call.ownerValue {α : Type} : Call α → α
  | Call.callFn _ w _ _ => w
  | Call.notify _ _ w _ _ => w

/-- The loop body of `signal.emit`.  Crucially, the Python loop reassigns
its local `args` (`args = args + sargs`) and mutates its local `kw`
(`kw.update(skw)`) when it processes a signal bind, so those accumulated
values are what every later iteration starts from. -/
def emitLoop {α : Type} (name : String) (owner : α) :
    List (Obv α) → List α → Kw α → List (Call α)
  | [], _, _ => []
  | Obv.bind fn sargs skw :: rest, args, kw =>
      let args2 := args ++ sargs
      let kw2 := dictUpdate kw skw
      Call.callFn fn owner args2 kw2 :: emitLoop name owner rest args2 kw2
  | Obv.obj o :: rest, args, kw =>
      Call.notify o name owner args kw :: emitLoop name owner rest args kw

/-- `signal.emit(*args, **kw)`: the sequence of calls the loop performs,
in order.  `emit` does not touch `observers` or `observer_count`. -/
def emit {α : Type} (s : SignalState α) (args : List α) (kw : Kw α) :
    List (Call α) :=
  emitLoop s.name s.obj s.observers args kw

/-- `signal.emit` executed against subscriber behaviours: `behave call`
returns `some e` when that subscriber raises exception `e`.  The loop makes
the same calls as `emitLoop` but stops at the first raising subscriber;
the result pairs the calls actually made with the propagated exception,
if any. -/
def emitRunLoop {α ε : Type} (behave : Call α → Option ε) (name : String)
    (owner : α) : List (Obv α) → List α → Kw α → List (Call α) × Option ε
  | [], _, _ => ([], none)
  | Obv.bind fn sargs skw :: rest, args, kw =>
      let args2 := args ++ sargs
      let kw2 := dictUpdate kw skw
      let call := Call.callFn fn owner args2 kw2
      match behave call with
      | some e => ([call], some e)
      | none =>
          let p := emitRunLoop behave name owner rest args2 kw2
          (call :: p.1, p.2)
  | Obv.obj o :: rest, args, kw =>
      let call := Call.notify o name owner args kw
      match behave call with
      | some e => ([call], some e)
      | none =>
          let p := emitRunLoop behave name owner rest args kw
          (call :: p.1, p.2)

/-- `signal.emit` with subscriber behaviours, from the signal's state. -/
def emitRun {α ε : Type} (behave : Call α → Option ε) (s : SignalState α)
    (args : List α) (kw : Kw α) : List (Call α) × Option ε :=
  emitRunLoop behave s.name s.obj s.observers args kw

/-- A method call on a `signal` instance, for reasoning about arbitrary
operation sequences. -/
inductive SigOp (α : Type) : Type where
  | connectOp (x : α) (binds : List α) (kw : Kw α)
  | disconnectOp (x : α) (binds : List α) (kw : Kw α)
  | emitOp (args : List α) (kw : Kw α)

/-- Run one method call against the state.  A `disconnect` whose
`list.remove` raises leaves the state exactly as it was (the exception
propagates before any field is written); `emit` never writes any field. -/
def runOp {α : Type} [DecidableEq α] (c : α → Bool) (s : SignalState α) :
    SigOp α → SignalState α
  | SigOp.connectOp x b k => connect c s x b k
  | SigOp.disconnectOp x b k =>
      match disconnect c s x b k with
      | Except.ok s' => s'
      | Except.error _ => s
  | SigOp.emitOp _ _ => s

/-- Run a sequence of method calls. -/
def runOps {α : Type} [DecidableEq α] (c : α → Bool) (s : SignalState α)
    (ops : List (SigOp α)) : SignalState α :=
  ops.foldl (runOp c) s

/-- A concrete `callable` predicate on `Nat` used for concrete instances:
even numbers stand for functions, odd numbers for non-callable objects. -/
def cNat : Nat → Bool := fun n => n % 2 == 0

/-- A concrete subscriber behaviour on `Nat` values: the subscriber `4`
raises exception `99`, every other subscriber returns normally. -/
def behaveNat : Call Nat → Option Nat :=
  fun call => if Call.sub call = 4 then some 99 else none

/-- Python sequence indexing `a[i]` on a list: a non-negative index reads
from the front, a negative index `-len ≤ i < 0` reads from the back, and
anything else is an `IndexError`, modelled as `none`. -/
def pyGet {β : Type} (a : List β) (i : Int) : Option β :=
  if 0 ≤ i then a.get? i.toNat
  else if 0 ≤ i + (a.length : Int) then a.get? (i + (a.length : Int)).toNat
  else none

/-- The `while (high - low) > 1` loop of `binary_search`, together with the
final two boundary checks after the loop, instrumented with the list of
indices the iteration reads (in order).  `none` models an uncaught
`IndexError`; `some (r, tr)` is a normal return of `r` having read exactly
the indices in `tr`.  Python's `//` on the non-negative operands is floor
division, `Int.fdiv`.  Termination: the window width `high - low` strictly
decreases on every iteration of the loop. -/
def bsLoop {β : Type} [LinearOrder β] (a : List β) (pat : β) :
    Int → Int → Option (Int × List Int)
  | low, high =>
    if _h : high - low > 1 then
      let mid := (high + low).fdiv 2
      match pyGet a mid with
      | none => none
      | some v =>
        if v = pat then some (mid, [mid])
        else if v < pat then
          (bsLoop a pat (mid + 1) high).map (fun p => (p.1, mid :: p.2))
        else
          (bsLoop a pat low (mid - 1)).map (fun p => (p.1, mid :: p.2))
    else
      match pyGet a low with
      | none => none
      | some vl =>
        if vl = pat then some (low, [low])
        else
          match pyGet a high with
          | none => none
          | some vh =>
            if vh = pat then some (high, [low, high])
            else some (-1, [low, high])
  termination_by low high => (high - low).toNat
  decreasing_by
  · rw [Int.fdiv_eq_ediv _ (by norm_num)] at *
    omega
  · rw [Int.fdiv_eq_ediv _ (by norm_num)] at *
    omega

/-- `binary_search(array, pattern)`, instrumented with the list of indices
it reads: sets `low, high = 0, len(array)-1`, returns `-1` when
`low > high`, and otherwise runs the search loop. -/
def binary_search_trace {β : Type} [LinearOrder β] (a : List β) (pat : β) :
    Option (Int × List Int) :=
  let low : Int := 0
  let high : Int := (a.length : Int) - 1
  if low > high then some (-1, [])
  else bsLoop a pat low high

/-- `binary_search(array, pattern)`: the returned index alone (`none` is an
uncaught `IndexError`, which in fact never happens). -/
def binary_search {β : Type} [LinearOrder β] (a : List β) (pat : β) :
    Option Int :=
  (binary_search_trace a pat).map (fun p => p.1)

/-! ### Helper lemmas about the signal embedding -/

lemma emitLoop_map_sub {α : Type} (name : String) (w : α) :
    ∀ (l : List (Obv α)) (args : List α) (kw : Kw α),
    (emitLoop name w l args kw).map Call.sub = l.map Obv.sub := by
  intro l
  induction l with
  | nil => intro args kw; simp [emitLoop]
  | cons o rest ih =>
    intro args kw
    cases o with
    | bind fn sargs skw => simp [emitLoop, Call.sub, Obv.sub, ih]
    | obj o => simp [emitLoop, Call.sub, Obv.sub, ih]

lemma emitLoop_length {α : Type} (name : String) (w : α) (l : List (Obv α))
    (args : List α) (kw : Kw α) :
    (emitLoop name w l args kw).length = l.length := by
  have h := emitLoop_map_sub name w l args kw
  have h1 := congrArg List.length h
  simpa using h1

lemma emitLoop_owner {α : Type} (name : String) (w : α) :
    ∀ (l : List (Obv α)) (args : List α) (kw : Kw α),
    ∀ call ∈ emitLoop name w l args kw, Call.ownerValue call = w := by
  intro l
  induction l with
  | nil => intro args kw call hc; simp [emitLoop] at hc
  | cons o rest ih =>
    intro args kw call hc
    cases o with
    | bind fn sargs skw =>
      simp only [emitLoop, List.mem_cons] at hc
      rcases hc with h | h
      · subst h; rfl
      · exact ih _ _ call h
    | obj o =>
      simp only [emitLoop, List.mem_cons] at hc
      rcases hc with h | h
      · subst h; rfl
      · exact ih _ _ call h

lemma dictEqv_refl {α : Type} [DecidableEq α] (d : Kw α) : dictEqv d d = true := by
  simp [dictEqv, List.all_eq_true]

lemma obvBeq_refl {α : Type} [DecidableEq α] (t : Obv α) : obvBeq t t = true := by
  cases t with
  | bind f a k => simp [obvBeq, dictEqv_refl]
  | obj o => simp [obvBeq]

lemma obvBeq_sub {α : Type} [DecidableEq α] {y t : Obv α}
    (h : obvBeq y t = true) : Obv.sub y = Obv.sub t := by
  cases y with
  | bind f a k =>
    cases t with
    | bind f' a' k' =>
      simp only [obvBeq, Bool.and_eq_true, decide_eq_true_eq] at h
      simp [Obv.sub, h.1.1]
    | obj o' => simp [obvBeq] at h
  | obj o =>
    cases t with
    | bind f' a' k' => simp [obvBeq] at h
    | obj o' =>
      simp only [obvBeq, decide_eq_true_eq] at h
      simp [Obv.sub, h]

lemma removeFirst_of_no_match {α : Type} [DecidableEq α] (t : Obv α) :
    ∀ (l : List (Obv α)), (∀ y ∈ l, obvBeq y t = false) →
    removeFirst t l = none := by
  intro l
  induction l with
  | nil => intro _; rfl
  | cons y ys ih =>
    intro h
    have hy := h y (List.mem_cons_self y ys)
    simp [removeFirst, hy, ih (fun z hz => h z (List.mem_cons_of_mem y hz))]

lemma removeFirst_length {α : Type} [DecidableEq α] (t : Obv α) :
    ∀ (l l' : List (Obv α)), removeFirst t l = some l' →
    l.length = l'.length + 1 := by
  intro l
  induction l with
  | nil => intro l' h; simp [removeFirst] at h
  | cons y ys ih =>
    intro l' h
    by_cases hb : obvBeq y t = true
    · simp only [removeFirst, hb, if_pos] at h
      simp only [Option.some.injEq] at h
      subst h
      simp
    · simp only [removeFirst, hb, if_neg, Bool.false_eq_true, not_false_iff,
        Option.map_eq_some'] at h
      rcases h with ⟨l2, h2, rfl⟩
      simp [ih l2 h2]

lemma removeFirst_countP {α : Type} [DecidableEq α] (t : Obv α)
    (p : Obv α → Bool) (hp : ∀ y, obvBeq y t = true → p y = true) :
    ∀ (l l' : List (Obv α)), removeFirst t l = some l' →
    l.countP p = l'.countP p + 1 := by
  intro l
  induction l with
  | nil => intro l' h; simp [removeFirst] at h
  | cons y ys ih =>
    intro l' h
    by_cases hb : obvBeq y t = true
    · simp only [removeFirst, hb, if_pos] at h
      simp only [Option.some.injEq] at h
      subst h
      simp [List.countP_cons, hp y hb]
    · simp only [removeFirst, hb, if_neg, Bool.false_eq_true, not_false_iff,
        Option.map_eq_some'] at h
      rcases h with ⟨l2, h2, rfl⟩
      simp only [List.countP_cons, ih l2 h2]
      omega

lemma removeFirst_append {α : Type} [DecidableEq α] (t e : Obv α)
    (l2 : List (Obv α)) (he : obvBeq e t = true) :
    ∀ (l1 : List (Obv α)), (∀ y ∈ l1, obvBeq y t = false) →
    removeFirst t (l1 ++ e :: l2) = some (l1 ++ l2) := by
  intro l1
  induction l1 with
  | nil => intro _; simp [removeFirst, he]
  | cons y ys ih =>
    intro h
    have hy := h y (List.mem_cons_self y ys)
    simp [removeFirst, hy, ih (fun z hz => h z (List.mem_cons_of_mem y hz))]

lemma runOp_preserves_inv {α : Type} [DecidableEq α] (c : α → Bool)
    (s : SignalState α) (op : SigOp α)
    (h : s.observer_count = (s.observers.length : Int)) :
    (runOp c s op).observer_count = ((runOp c s op).observers.length : Int) := by
  cases op with
  | connectOp x b k =>
    by_cases hcx : c x <;> simp [runOp, connect, hcx, h]
  | disconnectOp x b k =>
    simp only [runOp]
    cases hd : disconnect c s x b k with
    | error e => exact h
    | ok s' =>
      simp only [disconnect] at hd
      cases hrem : removeFirst
          (if c x then _form_signal_bind x b k else Obv.obj x)
          s.observers with
      | none => rw [hrem] at hd; cases hd
      | some obs' =>
        rw [hrem] at hd
        injection hd with h2
        subst h2
        have hlen := removeFirst_length _ _ _ hrem
        show s.observer_count - 1 = (obs'.length : Int)
        omega
  | emitOp a k => exact h

lemma emit_countP_sub {α : Type} (s : SignalState α) (args : List α)
    (kw : Kw α) (p : α → Bool) :
    (emit s args kw).countP (fun call => p (Call.sub call))
      = s.observers.countP (fun o => p (Obv.sub o)) := by
  have h := emitLoop_map_sub s.name s.obj s.observers args kw
  have h2 := congrArg (List.countP p) h
  simpa [List.countP_map, Function.comp] using h2

lemma emitRunLoop_take {α ε : Type} (behave : Call α → Option ε)
    (name : String) (w : α) :
    ∀ (l : List (Obv α)) (args : List α) (kw : Kw α) (i : Nat) (e : ε)
      (call : Call α),
    (emitLoop name w l args kw).get? i = some call →
    behave call = some e →
    (∀ j call', j < i → (emitLoop name w l args kw).get? j = some call' →
        behave call' = none) →
    emitRunLoop behave name w l args kw
      = ((emitLoop name w l args kw).take (i + 1), some e) := by
  intro l
  induction l with
  | nil =>
    intro args kw i e call hget _ _
    simp [emitLoop] at hget
  | cons o rest ih =>
    intro args kw i e call hget hfail hok
    cases o with
    | bind fn sargs skw =>
      cases i with
      | zero =>
        simp only [emitLoop, List.get?] at hget
        cases hget
        simp [emitRunLoop, emitLoop, hfail]
      | succ i' =>
        have h0 : behave (Call.callFn fn w (args ++ sargs) (dictUpdate kw skw))
            = none := by
          apply hok 0 _ (Nat.succ_pos i')
          simp [emitLoop, List.get?]
        have hok' : ∀ j call', j < i' →
            (emitLoop name w rest (args ++ sargs) (dictUpdate kw skw)).get? j
              = some call' → behave call' = none := by
          intro j call' hj hg
          apply hok (j + 1) call' (Nat.succ_lt_succ hj)
          simpa [emitLoop, List.get?] using hg
        have hget' : (emitLoop name w rest (args ++ sargs)
            (dictUpdate kw skw)).get? i' = some call := by
          simpa [emitLoop, List.get?] using hget
        have hrec := ih (args ++ sargs) (dictUpdate kw skw) i' e call
          hget' hfail hok'
        simp [emitRunLoop, emitLoop, h0, hrec]
    | obj ob =>
      cases i with
      | zero =>
        simp only [emitLoop, List.get?] at hget
        cases hget
        simp [emitRunLoop, emitLoop, hfail]
      | succ i' =>
        have h0 : behave (Call.notify ob name w args kw) = none := by
          apply hok 0 _ (Nat.succ_pos i')
          simp [emitLoop, List.get?]
        have hok' : ∀ j call', j < i' →
            (emitLoop name w rest args kw).get? j = some call' →
            behave call' = none := by
          intro j call' hj hg
          apply hok (j + 1) call' (Nat.succ_lt_succ hj)
          simpa [emitLoop, List.get?] using hg
        have hget' : (emitLoop name w rest args kw).get? i' = some call := by
          simpa [emitLoop, List.get?] using hget
        have hrec := ih args kw i' e call hget' hfail hok'
        simp [emitRunLoop, emitLoop, h0, hrec]

/-! ### Helper lemmas about the binary search embedding -/

lemma pyGet_nonneg {β : Type} (a : List β) (i : Int) (h0 : 0 ≤ i) :
    pyGet a i = a.get? i.toNat := by
  simp [pyGet, h0]

lemma pyGet_some {β : Type} (a : List β) (i : Int) (h0 : 0 ≤ i)
    (h1 : i < (a.length : Int)) :
    ∃ v, pyGet a i = some v := by
  rw [pyGet_nonneg a i h0]
  have hlt : i.toNat < a.length := by omega
  exact ⟨a.get ⟨i.toNat, hlt⟩, List.get?_eq_get hlt⟩

lemma sorted_pyGet_le {β : Type} [LinearOrder β] {a : List β}
    (hs : List.Sorted (· ≤ ·) a) {i j : Int} (h0 : 0 ≤ i) (hij : i ≤ j)
    {x y : β}
    (hx : pyGet a i = some x) (hy : pyGet a j = some y) : x ≤ y := by
  rw [pyGet_nonneg a i h0] at hx
  rw [pyGet_nonneg a j (le_trans h0 hij)] at hy
  rcases List.get?_eq_some.mp hx with ⟨hxi, hxg⟩
  rcases List.get?_eq_some.mp hy with ⟨hyi, hyg⟩
  have hle : (⟨i.toNat, hxi⟩ : Fin a.length) ≤ ⟨j.toNat, hyi⟩ := by
    simp only [Fin.mk_le_mk]
    omega
  calc x = a.get ⟨i.toNat, hxi⟩ := hxg.symm
    _ ≤ a.get ⟨j.toNat, hyi⟩ := hs.rel_get_of_le hle
    _ = y := hyg

lemma bsLoop_step_found {β : Type} [LinearOrder β] (a : List β) (pat : β)
    (low high : Int) (hcond : high - low > 1) (v : β)
    (hv : pyGet a ((high + low).fdiv 2) = some v) (hveq : v = pat) :
    bsLoop a pat low high
      = some ((high + low).fdiv 2, [(high + low).fdiv 2]) := by
  conv_lhs => rw [bsLoop]
  simp [hcond, hv, hveq]

lemma bsLoop_step_right {β : Type} [LinearOrder β] (a : List β) (pat : β)
    (low high : Int) (hcond : high - low > 1) (v : β)
    (hv : pyGet a ((high + low).fdiv 2) = some v) (hveq : ¬ v = pat)
    (hvlt : v < pat) :
    bsLoop a pat low high
      = (bsLoop a pat ((high + low).fdiv 2 + 1) high).map
          (fun p => (p.1, (high + low).fdiv 2 :: p.2)) := by
  conv_lhs => rw [bsLoop]
  simp [hcond, hv, hveq, hvlt]

lemma bsLoop_step_left {β : Type} [LinearOrder β] (a : List β) (pat : β)
    (low high : Int) (hcond : high - low > 1) (v : β)
    (hv : pyGet a ((high + low).fdiv 2) = some v) (hveq : ¬ v = pat)
    (hvlt : ¬ v < pat) :
    bsLoop a pat low high
      = (bsLoop a pat low ((high + low).fdiv 2 - 1)).map
          (fun p => (p.1, (high + low).fdiv 2 :: p.2)) := by
  conv_lhs => rw [bsLoop]
  simp [hcond, hv, hveq, hvlt]

lemma bsLoop_tail_found_low {β : Type} [LinearOrder β] (a : List β)
    (pat : β) (low high : Int) (hcond : ¬ high - low > 1) (vl : β)
    (hvl : pyGet a low = some vl) (h : vl = pat) :
    bsLoop a pat low high = some (low, [low]) := by
  conv_lhs => rw [bsLoop]
  simp [hcond, hvl, h]

lemma bsLoop_tail_found_high {β : Type} [LinearOrder β] (a : List β)
    (pat : β) (low high : Int) (hcond : ¬ high - low > 1) (vl vh : β)
    (hvl : pyGet a low = some vl) (h1 : ¬ vl = pat)
    (hvh : pyGet a high = some vh) (h2 : vh = pat) :
    bsLoop a pat low high = some (high, [low, high]) := by
  conv_lhs => rw [bsLoop]
  simp [hcond, hvl, h1, hvh, h2]

lemma bsLoop_tail_notfound {β : Type} [LinearOrder β] (a : List β)
    (pat : β) (low high : Int) (hcond : ¬ high - low > 1) (vl vh : β)
    (hvl : pyGet a low = some vl) (h1 : ¬ vl = pat)
    (hvh : pyGet a high = some vh) (h2 : ¬ vh = pat) :
    bsLoop a pat low high = some (-1, [low, high]) := by
  conv_lhs => rw [bsLoop]
  simp [hcond, hvl, h1, hvh, h2]

lemma bsLoop_tail_spec {β : Type} [LinearOrder β] (a : List β) (pat : β)
    (low high : Int) (hcond : ¬ high - low > 1) (h0 : 0 ≤ low)
    (h1 : low ≤ high) (h2 : high < (a.length : Int)) :
    ∃ r tr, bsLoop a pat low high = some (r, tr)
      ∧ (∀ i ∈ tr, 0 ≤ i ∧ i < (a.length : Int))
      ∧ (r = -1 ∨ (0 ≤ r ∧ r < (a.length : Int) ∧ pyGet a r = some pat))
      ∧ (List.Sorted (· ≤ ·) a →
          (∃ j : Int, low ≤ j ∧ j ≤ high ∧ pyGet a j = some pat) →
          r ≠ -1) := by
  obtain ⟨vl, hvl⟩ := pyGet_some a low h0 (by omega)
  by_cases hl : vl = pat
  · refine ⟨low, [low], bsLoop_tail_found_low a pat low high hcond vl hvl hl,
      ?_, ?_, ?_⟩
    · intro i hi
      simp only [List.mem_singleton] at hi
      subst hi
      exact ⟨h0, by omega⟩
    · right
      exact ⟨h0, by omega, by rw [hvl, hl]⟩
    · intro _ _
      omega
  · obtain ⟨vh, hvh⟩ := pyGet_some a high (by omega) h2
    by_cases hh : vh = pat
    · refine ⟨high, [low, high],
        bsLoop_tail_found_high a pat low high hcond vl vh hvl hl hvh hh,
        ?_, ?_, ?_⟩
      · intro i hi
        simp only [List.mem_cons, List.not_mem_nil, or_false] at hi
        rcases hi with rfl | rfl
        · exact ⟨h0, by omega⟩
        · exact ⟨by omega, h2⟩
      · right
        exact ⟨by omega, h2, by rw [hvh, hh]⟩
      · intro _ _
        omega
    · refine ⟨-1, [low, high],
        bsLoop_tail_notfound a pat low high hcond vl vh hvl hl hvh hh,
        ?_, Or.inl rfl, ?_⟩
      · intro i hi
        simp only [List.mem_cons, List.not_mem_nil, or_false] at hi
        rcases hi with rfl | rfl
        · exact ⟨h0, by omega⟩
        · exact ⟨by omega, h2⟩
      · intro _ hex
        exfalso
        obtain ⟨j, hj1, hj2, hj3⟩ := hex
        have hj4 : j = low ∨ j = high := by omega
        rcases hj4 with rfl | rfl
        · rw [hvl] at hj3
          exact hl (Option.some.inj hj3)
        · rw [hvh] at hj3
          exact hh (Option.some.inj hj3)

lemma bsLoop_spec {β : Type} [LinearOrder β] (a : List β) (pat : β) :
    ∀ (n : Nat) (low high : Int), (high - low).toNat ≤ n →
    0 ≤ low → low ≤ high → high < (a.length : Int) →
    ∃ r tr, bsLoop a pat low high = some (r, tr)
      ∧ (∀ i ∈ tr, 0 ≤ i ∧ i < (a.length : Int))
      ∧ (r = -1 ∨ (0 ≤ r ∧ r < (a.length : Int) ∧ pyGet a r = some pat))
      ∧ (List.Sorted (· ≤ ·) a →
          (∃ j : Int, low ≤ j ∧ j ≤ high ∧ pyGet a j = some pat) →
          r ≠ -1) := by
  intro n
  induction n with
  | zero =>
    intro low high hn h0 h1 h2
    exact bsLoop_tail_spec a pat low high (by omega) h0 h1 h2
  | succ m ih =>
    intro low high hn h0 h1 h2
    by_cases hcond : high - low > 1
    · have hmid2 : (high + low).fdiv 2 = (high + low) / 2 :=
        Int.fdiv_eq_ediv _ (by norm_num)
      have hmlow : low + 1 ≤ (high + low).fdiv 2 := by omega
      have hmhigh : (high + low).fdiv 2 ≤ high - 1 := by omega
      obtain ⟨v, hv⟩ := pyGet_some a ((high + low).fdiv 2) (by omega)
        (by omega)
      by_cases hveq : v = pat
      · refine ⟨(high + low).fdiv 2, [(high + low).fdiv 2],
          bsLoop_step_found a pat low high hcond v hv hveq, ?_, ?_, ?_⟩
        · intro i hi
          simp only [List.mem_singleton] at hi
          subst hi
          exact ⟨by omega, by omega⟩
        · right
          exact ⟨by omega, by omega, by rw [hv, hveq]⟩
        · intro _ _
          omega
      · by_cases hvlt : v < pat
        · obtain ⟨r, tr, heq, htr, hres, hsor⟩ :=
            ih ((high + low).fdiv 2 + 1) high (by omega) (by omega)
              (by omega) h2
          refine ⟨r, (high + low).fdiv 2 :: tr, ?_, ?_, hres, ?_⟩
          · rw [bsLoop_step_right a pat low high hcond v hv hveq hvlt, heq]
            rfl
          · intro i hi
            rcases List.mem_cons.mp hi with rfl | hi2
            · exact ⟨by omega, by omega⟩
            · exact htr i hi2
          · intro hs hex
            apply hsor hs
            obtain ⟨j, hj1, hj2, hj3⟩ := hex
            refine ⟨j, ?_, hj2, hj3⟩
            by_contra hlt
            push_neg at hlt
            have hle : pat ≤ v :=
              sorted_pyGet_le hs (by omega : (0:Int) ≤ j) (by omega) hj3 hv
            exact absurd (lt_of_le_of_lt hle hvlt) (lt_irrefl pat)
        · have hvgt : pat < v :=
            lt_of_le_of_ne (le_of_not_lt hvlt) (fun h => hveq h.symm)
          obtain ⟨r, tr, heq, htr, hres, hsor⟩ :=
            ih low ((high + low).fdiv 2 - 1) (by omega) h0 (by omega)
              (by omega)
          refine ⟨r, (high + low).fdiv 2 :: tr, ?_, ?_, hres, ?_⟩
          · rw [bsLoop_step_left a pat low high hcond v hv hveq hvlt, heq]
            rfl
          · intro i hi
            rcases List.mem_cons.mp hi with rfl | hi2
            · exact ⟨by omega, by omega⟩
            · exact htr i hi2
          · intro hs hex
            apply hsor hs
            obtain ⟨j, hj1, hj2, hj3⟩ := hex
            refine ⟨j, hj1, ?_, hj3⟩
            by_contra hgt
            push_neg at hgt
            have hle : v ≤ pat :=
              sorted_pyGet_le hs (by omega : (0:Int) ≤ (high + low).fdiv 2)
                (by omega) hv hj3
            exact absurd (lt_of_le_of_lt hle hvgt) (lt_irrefl v)
    · exact bsLoop_tail_spec a pat low high hcond h0 h1 h2

/-! ### Claim theorems -/

/-- Claim C1 (code bug, evaluation at the failing input): the loop body of
`signal.emit` reassigns the emit-local `args` and mutates the emit-local
`kw`, so a bind's extra arguments leak into every later subscriber's call.
Here the second subscriber (`4`) was connected with no extra arguments, and
the claim says it must be invoked as `fn(owner, 9, b=6)`; the code instead
invokes it as `fn(owner, 9, 42, b=6, a=5)`, with the first subscriber's
bound data. -/
theorem emit_accumulates_bound_args :
    emit (⟨"sig", 0, [Obv.bind 2 [42] [("a", 5)], Obv.bind 4 [] []], 2⟩ :
        SignalState Nat) [9] [("b", 6)]
      = [Call.callFn 2 0 [9, 42] [("b", 6), ("a", 5)],
         Call.callFn 4 0 [9, 42] [("b", 6), ("a", 5)]]
    ∧ Call.callFn 4 (0 : Nat) [9, 42] [("b", 6), ("a", 5)]
        ≠ Call.callFn 4 (0 : Nat) [9] [("b", 6)] := by
  exact ⟨by rfl, by decide⟩

/-- Claim C3 (code bug, evaluation at the failing input): `signal.connect`
performs no validation whatsoever.  A non-callable value with no
`on_notify` method (here the plain value `5`; the code never even inspects
conformance) is appended to `observers` and the count is incremented;
nothing is raised, although the repository's own test
(`tests/test_signals.py::test_errors`) expects `connect(4)` on a fresh
signal to raise. -/
theorem connect_non_callable_no_error :
    cNat 5 = false
    ∧ connect cNat (signal_init "test" (0 : Nat)) 5 [] []
        = ⟨"test", 0, [Obv.obj 5], 1⟩ := by
  exact ⟨by rfl, by rfl⟩

/-- Claim C4: for any state (hence after any sequence of `connect` calls),
a single `emit` delivers exactly one call per registered subscription, in
exactly registration order (the calls' subscribers are the observers'
subscribers, positionally), and every call carries the signal's owner as
its owner argument (the first positional argument for a callable
subscriber). -/
theorem emit_delivers_in_registration_order {α : Type} (s : SignalState α)
    (args : List α) (kw : Kw α) :
    (emit s args kw).map Call.sub = s.observers.map Obv.sub
    ∧ ∀ call ∈ emit s args kw, Call.ownerValue call = s.obj := by
  exact ⟨emitLoop_map_sub s.name s.obj s.observers args kw,
         emitLoop_owner s.name s.obj s.observers args kw⟩

/-- Witness for C4 at a concrete signal with a bind, an object observer and
a second bind. -/
theorem emit_delivers_in_registration_order_witness :
    (emit (⟨"sig", 1, [Obv.bind 2 [] [], Obv.obj 7, Obv.bind 4 [3] []], 3⟩ :
        SignalState Nat) [5] []).map Call.sub
      = [Obv.bind 2 [] [], Obv.obj 7, Obv.bind 4 [3] []].map
          (Obv.sub (α := Nat))
    ∧ ∀ call ∈ emit (⟨"sig", 1, [Obv.bind 2 [] [], Obv.obj 7,
        Obv.bind 4 [3] []], 3⟩ : SignalState Nat) [5] [],
        Call.ownerValue call = 1 := by
  exact emit_delivers_in_registration_order
    (⟨"sig", 1, [Obv.bind 2 [] [], Obv.obj 7, Obv.bind 4 [3] []], 3⟩ :
      SignalState Nat) [5] []

/-- Claim C5: when no registration of the signal is `==`-equal to the entry
`disconnect` forms from its arguments — in particular when the subscriber
was never connected — `disconnect` raises (the `ValueError` of
`list.remove`, the library's not-found error). -/
theorem disconnect_no_match_raises {α : Type} [DecidableEq α]
    (c : α → Bool) (s : SignalState α) (x : α) (binds : List α) (kw : Kw α)
    (h : ∀ y ∈ s.observers,
      obvBeq y (if c x then _form_signal_bind x binds kw else Obv.obj x)
        = false) :
    disconnect c s x binds kw = Except.error SigError.valueError := by
  have hr := removeFirst_of_no_match
    (if c x then _form_signal_bind x binds kw else Obv.obj x) s.observers h
  simp only [disconnect]
  rw [hr]

/-- Witness for C5: disconnecting a never-connected subscriber from a
signal with one other registration raises. -/
theorem disconnect_no_match_raises_witness :
    (∀ y ∈ [Obv.bind 2 [] ([] : Kw Nat)],
      obvBeq y (if cNat 4 then _form_signal_bind 4 [] [] else Obv.obj 4)
        = false)
    ∧ disconnect cNat (⟨"t", 0, [Obv.bind 2 [] []], 1⟩ : SignalState Nat)
        4 [] [] = Except.error SigError.valueError := by
  refine ⟨by decide, ?_⟩
  exact disconnect_no_match_raises cNat
    (⟨"t", 0, [Obv.bind 2 [] []], 1⟩ : SignalState Nat) 4 [] [] (by decide)

/-- Claim C6: `connect` increments `observer_count` by exactly one;
a successful `disconnect` decrements it by exactly one; and when the
disconnected subscriber had exactly one registration, a subsequent `emit`
makes no call to it. -/
theorem connect_disconnect_count_and_removal {α : Type} [DecidableEq α]
    (c : α → Bool) (s : SignalState α) (x : α) (binds : List α) (kw : Kw α) :
    (connect c s x binds kw).observer_count = s.observer_count + 1
    ∧ ∀ s', disconnect c s x binds kw = Except.ok s' →
        s'.observer_count = s.observer_count - 1
        ∧ (s.observers.countP (fun o => decide (Obv.sub o = x)) = 1 →
            ∀ args kwe call, call ∈ emit s' args kwe → Call.sub call ≠ x) := by
  constructor
  · rfl
  · intro s' h
    simp only [disconnect] at h
    cases hrem : removeFirst
        (if c x then _form_signal_bind x binds kw else Obv.obj x)
        s.observers with
    | none => rw [hrem] at h; cases h
    | some obs' =>
      rw [hrem] at h
      injection h with h2
      subst h2
      constructor
      · rfl
      · intro h1 args kwe call hc hx
        have hts : Obv.sub
            (if c x then _form_signal_bind x binds kw else Obv.obj x) = x := by
          by_cases hcx : c x <;> simp [hcx, _form_signal_bind, Obv.sub]
        have hcount := removeFirst_countP
          (if c x then _form_signal_bind x binds kw else Obv.obj x)
          (fun o => decide (Obv.sub o = x))
          (fun y hy => by simp [obvBeq_sub hy, hts])
          s.observers obs' hrem
        have h0 : obs'.countP (fun o => decide (Obv.sub o = x)) = 0 := by
          omega
        have hmm : Call.sub call ∈ obs'.map Obv.sub := by
          have hmap := emitLoop_map_sub s.name s.obj obs' args kwe
          have hin : Call.sub call ∈ (emit
              { s with observers := obs',
                       observer_count := s.observer_count - 1 } args kwe).map
                Call.sub :=
            List.mem_map_of_mem Call.sub hc
          simp only [emit] at hin
          rw [hmap] at hin
          exact hin
        rcases List.mem_map.mp hmm with ⟨o, ho, hoeq⟩
        have hno := (List.countP_eq_zero.mp h0) o ho
        rw [hoeq, hx] at hno
        simp at hno

/-- Witness for C6 at a concrete signal holding one matching bind. -/
theorem connect_disconnect_count_and_removal_witness :
    (connect cNat (⟨"t", 1, [Obv.bind 2 [] []], 1⟩ : SignalState Nat)
        2 [] []).observer_count = 2
    ∧ ∀ call ∈ emit (⟨"t", 1, [], 0⟩ : SignalState Nat) [5] [],
        Call.sub call ≠ 2 := by
  have h := connect_disconnect_count_and_removal cNat
    (⟨"t", 1, [Obv.bind 2 [] []], 1⟩ : SignalState Nat) 2 [] []
  have h2 := h.2 (⟨"t", 1, [], 0⟩ : SignalState Nat) (by rfl)
  exact ⟨h.1, fun call hc => h2.2 (by decide) [5] [] call hc⟩

/-- Claim C7: when the subscriber at position `i` of an emission raises
exception `e` (and those before it do not), the exception propagates out of
`emit` and the calls actually made are exactly the first `i + 1` of the
emission — no subscriber registered after the raising one is notified. -/
theorem emit_exception_halts {α ε : Type} (behave : Call α → Option ε)
    (s : SignalState α) (args : List α) (kw : Kw α) (i : Nat) (e : ε)
    (call : Call α)
    (hget : (emit s args kw).get? i = some call)
    (hfail : behave call = some e)
    (hok : ∀ j call', j < i → (emit s args kw).get? j = some call' →
        behave call' = none) :
    emitRun behave s args kw = ((emit s args kw).take (i + 1), some e) := by
  exact emitRunLoop_take behave s.name s.obj s.observers args kw i e call
    hget hfail hok

/-- Witness for C7: of three bind subscribers the second raises `99`; the
third is never called and the exception comes out of `emit`. -/
theorem emit_exception_halts_witness :
    emitRun behaveNat (⟨"sig", 0, [Obv.bind 2 [] [], Obv.bind 4 [] [],
        Obv.bind 6 [] []], 3⟩ : SignalState Nat) [] []
      = ([Call.callFn 2 0 [] [], Call.callFn 4 0 [] []], some 99) := by
  have h := emit_exception_halts behaveNat
    (⟨"sig", 0, [Obv.bind 2 [] [], Obv.bind 4 [] [], Obv.bind 6 [] []], 3⟩ :
      SignalState Nat) [] [] 1 99 (Call.callFn 4 0 [] [])
    (by rfl) (by rfl)
    (by
      intro j call' hj hg
      have hj0 : j = 0 := by omega
      subst hj0
      have hc : call' = Call.callFn 2 0 [] [] := by
        simpa [emit, emitLoop, dictUpdate, List.get?] using hg.symm
      subst hc
      rfl)
  exact h

/-- Claim C9: starting from a fresh signal, after any sequence of
`connect` / `disconnect` / `emit` calls the stored `observer_count` equals
the length of `observers`; and a `disconnect` whose `list.remove` raises
leaves the state exactly unchanged. -/
theorem signal_count_invariant {α : Type} [DecidableEq α] (c : α → Bool)
    (name : String) (obj : α) (ops : List (SigOp α)) :
    (runOps c (signal_init name obj) ops).observer_count
      = ((runOps c (signal_init name obj) ops).observers.length : Int)
    ∧ ∀ (s : SignalState α) (x : α) (b : List α) (k : Kw α) (err : SigError),
        disconnect c s x b k = Except.error err →
        runOp c s (SigOp.disconnectOp x b k) = s := by
  constructor
  · have main : ∀ (l : List (SigOp α)) (s : SignalState α),
        s.observer_count = (s.observers.length : Int) →
        (runOps c s l).observer_count
          = ((runOps c s l).observers.length : Int) := by
      intro l
      induction l with
      | nil => intro s h; exact h
      | cons op rest ih =>
        intro s h
        exact ih (runOp c s op) (runOp_preserves_inv c s op h)
    exact main ops (signal_init name obj) (by simp [signal_init])
  · intro s x b k err hd
    simp [runOp, hd]

/-- Witness for C9: connect `2`, fail to disconnect the never-connected
`4`, then emit; the count matches the list length throughout and the
failed disconnect is the identity on the state. -/
theorem signal_count_invariant_witness :
    (runOps cNat (signal_init "t" (0 : Nat)) [SigOp.connectOp 2 [] [],
        SigOp.disconnectOp 4 [] [], SigOp.emitOp [] []]).observer_count
      = ((runOps cNat (signal_init "t" (0 : Nat)) [SigOp.connectOp 2 [] [],
        SigOp.disconnectOp 4 [] [], SigOp.emitOp [] []]).observers.length :
          Int)
    ∧ runOp cNat (signal_init "t" (0 : Nat)) (SigOp.disconnectOp 4 [] [])
        = signal_init "t" 0 := by
  have h := signal_count_invariant cNat "t" (0 : Nat)
    [SigOp.connectOp 2 [] [], SigOp.disconnectOp 4 [] [], SigOp.emitOp [] []]
  exact ⟨h.1, h.2 (signal_init "t" 0) 4 [] [] SigError.valueError (by rfl)⟩

/-- Claim C10: connecting the same callable with the same bound arguments
twice yields two registrations — an emission calls it twice; one exact
`disconnect` removes exactly one of them — a further emission calls it
exactly once.  (Hypothesis: the callable had no other registration.) -/
theorem duplicate_connect_disconnect_one {α : Type} [DecidableEq α]
    (c : α → Bool) (s : SignalState α) (f : α) (binds : List α) (kw : Kw α)
    (hc : c f = true)
    (h0 : s.observers.countP (fun o => decide (Obv.sub o = f)) = 0) :
    (∀ args kwe,
      (emit (connect c (connect c s f binds kw) f binds kw) args kwe).countP
        (fun call => decide (Call.sub call = f)) = 2)
    ∧ ∃ s2,
        disconnect c (connect c (connect c s f binds kw) f binds kw)
            f binds kw = Except.ok s2
        ∧ ∀ args kwe, (emit s2 args kwe).countP
            (fun call => decide (Call.sub call = f)) = 1 := by
  have hgen : ∀ (st : SignalState α) (a : List α) (k : Kw α),
      (emit st a k).countP (fun call => decide (Call.sub call = f))
        = st.observers.countP (fun o => decide (Obv.sub o = f)) :=
    fun st a k => emit_countP_sub st a k (fun v => decide (v = f))
  have hobs1 : (connect c (connect c s f binds kw) f binds kw).observers
      = (s.observers ++ [Obv.bind f binds kw]) ++ [Obv.bind f binds kw] := by
    simp [connect, hc, _form_signal_bind]
  have hnomatch : ∀ y ∈ s.observers,
      obvBeq y (Obv.bind f binds kw) = false := by
    intro y hy
    cases hb : obvBeq y (Obv.bind f binds kw) with
    | false => rfl
    | true =>
      exfalso
      have hsub := obvBeq_sub hb
      have hz := List.countP_eq_zero.mp h0 y hy
      rw [hsub] at hz
      simp [Obv.sub] at hz
  have hrem : removeFirst (Obv.bind f binds kw)
      ((s.observers ++ [Obv.bind f binds kw]) ++ [Obv.bind f binds kw])
      = some (s.observers ++ [Obv.bind f binds kw]) := by
    have h2 := removeFirst_append (Obv.bind f binds kw) (Obv.bind f binds kw)
      [Obv.bind f binds kw] (obvBeq_refl _) s.observers hnomatch
    simpa [List.append_assoc] using h2
  constructor
  · intro args kwe
    rw [hgen, hobs1]
    simp [List.countP_append, List.countP_cons, Obv.sub]
    intro a ha
    have hz := List.countP_eq_zero.mp h0 a ha
    simpa [Obv.sub] using hz
  · refine ⟨{ connect c (connect c s f binds kw) f binds kw with
        observers := s.observers ++ [Obv.bind f binds kw],
        observer_count :=
          (connect c (connect c s f binds kw) f binds kw).observer_count
            - 1 }, ?_, ?_⟩
    · simp only [disconnect, hc, if_pos, _form_signal_bind]
      rw [hobs1, hrem]
    · intro args kwe
      rw [hgen]
      simp [List.countP_append, List.countP_cons, Obv.sub]
      intro a ha
      have hz := List.countP_eq_zero.mp h0 a ha
      simpa [Obv.sub] using hz

/-- Witness for C10: connect subscriber `2` (bound args `[3]`,
`{a: 1}`) twice to a fresh signal, emit, disconnect once, emit again. -/
theorem duplicate_connect_disconnect_one_witness :
    (emit (connect cNat (connect cNat (signal_init "t" (0 : Nat))
        2 [3] [("a", 1)]) 2 [3] [("a", 1)]) [] []).countP
      (fun call => decide (Call.sub call = 2)) = 2
    ∧ ∃ s2,
        disconnect cNat (connect cNat (connect cNat
            (signal_init "t" (0 : Nat)) 2 [3] [("a", 1)]) 2 [3] [("a", 1)])
            2 [3] [("a", 1)] = Except.ok s2
        ∧ ∀ args kwe, (emit s2 args kwe).countP
            (fun call => decide (Call.sub call = 2)) = 1 := by
  have h := duplicate_connect_disconnect_one cNat
    (signal_init "t" (0 : Nat)) 2 [3] [("a", 1)] (by rfl) (by rfl)
  exact ⟨h.1 [] [], h.2⟩

/-- Claim C2: on an ascending list, `binary_search` returns (without
raising) an index holding the target when the target occurs, `-1` when it
does not, and `-1` on the empty list. -/
theorem binary_search_correct {β : Type} [LinearOrder β] (a : List β)
    (t : β) (hs : List.Sorted (· ≤ ·) a) :
    (t ∈ a → ∃ i : Int, binary_search a t = some i ∧ 0 ≤ i
        ∧ i < (a.length : Int) ∧ a.get? i.toNat = some t)
    ∧ (t ∉ a → binary_search a t = some (-1))
    ∧ binary_search ([] : List β) t = some (-1) := by
  have hempty : binary_search ([] : List β) t = some (-1) := by rfl
  by_cases hlen : a.length = 0
  · have ha : a = [] := List.length_eq_zero.mp hlen
    subst ha
    exact ⟨fun hmem => absurd hmem (List.not_mem_nil t), fun _ => hempty,
      hempty⟩
  · have hlen1 : 0 < a.length := Nat.pos_of_ne_zero hlen
    have hentry : binary_search_trace a t
        = bsLoop a t 0 ((a.length : Int) - 1) := by
      simp only [binary_search_trace]
      rw [if_neg (show ¬ (0 : Int) > (a.length : Int) - 1 by omega)]
    obtain ⟨r, tr, heq, htr, hres, hsor⟩ := bsLoop_spec a t
      ((a.length : Int) - 1 - 0).toNat 0 ((a.length : Int) - 1)
      (le_refl _) (le_refl _) (by omega) (by omega)
    refine ⟨?_, ?_, hempty⟩
    · intro hmem
      rcases List.mem_iff_get.mp hmem with ⟨idx, hidx⟩
      have hidxlt := idx.isLt
      have hj : pyGet a ((idx : Nat) : Int) = some t := by
        rw [pyGet_nonneg a _ (Int.natCast_nonneg _), Int.toNat_natCast,
          List.get?_eq_get idx.isLt]
        exact congrArg some hidx
      have hr := hsor hs ⟨((idx : Nat) : Int), by omega, by omega, hj⟩
      rcases hres with hneg | ⟨hr0, hrlen, hrget⟩
      · exact absurd hneg hr
      · refine ⟨r, ?_, hr0, hrlen, ?_⟩
        · simp only [binary_search]
          rw [hentry, heq]
          rfl
        · rw [pyGet_nonneg a r hr0] at hrget
          exact hrget
    · intro hnmem
      rcases hres with hneg | ⟨hr0, hrlen, hrget⟩
      · subst hneg
        simp only [binary_search]
        rw [hentry, heq]
        rfl
      · exfalso
        rw [pyGet_nonneg a r hr0] at hrget
        exact hnmem (List.get?_mem hrget)

/-- Witness for C2 on concrete ascending lists: a present target, an
absent target, and the empty list. -/
theorem binary_search_correct_witness :
    (∃ i : Int, binary_search ([1, 2, 3] : List Int) 2 = some i ∧ 0 ≤ i
        ∧ i < (([1, 2, 3] : List Int).length : Int)
        ∧ ([1, 2, 3] : List Int).get? i.toNat = some 2)
    ∧ binary_search ([10, 20] : List Int) 5 = some (-1)
    ∧ binary_search ([] : List Int) 7 = some (-1) := by
  have h1 := binary_search_correct ([1, 2, 3] : List Int) 2 (by decide)
  have h2 := binary_search_correct ([10, 20] : List Int) 5 (by decide)
  exact ⟨h1.1 (by decide), h2.2.1 (by decide), h2.2.2⟩

/-- Claim C8: for a sorted list, `binary_search` terminates — witnessed by
its very definition, whose recursion is grounded on the strictly shrinking
window width `high - low` — and never raises: the trace of indices it
reads lies entirely within `[0, length - 1]`, and its result is `-1` or an
index within `[0, length - 1]`. -/
theorem binary_search_trace_safe {β : Type} [LinearOrder β] (a : List β)
    (t : β) (_hs : List.Sorted (· ≤ ·) a) :
    ∃ r tr, binary_search_trace a t = some (r, tr)
      ∧ (∀ i ∈ tr, 0 ≤ i ∧ i < (a.length : Int))
      ∧ (r = -1 ∨ (0 ≤ r ∧ r < (a.length : Int))) := by
  by_cases hlen : a.length = 0
  · refine ⟨-1, [], ?_, by simp, Or.inl rfl⟩
    simp only [binary_search_trace]
    rw [if_pos (by rw [hlen]; decide)]
  · have hlen1 : 0 < a.length := Nat.pos_of_ne_zero hlen
    have hentry : binary_search_trace a t
        = bsLoop a t 0 ((a.length : Int) - 1) := by
      simp only [binary_search_trace]
      rw [if_neg (show ¬ (0 : Int) > (a.length : Int) - 1 by omega)]
    obtain ⟨r, tr, heq, htr, hres, _⟩ := bsLoop_spec a t
      ((a.length : Int) - 1 - 0).toNat 0 ((a.length : Int) - 1)
      (le_refl _) (le_refl _) (by omega) (by omega)
    refine ⟨r, tr, ?_, htr, ?_⟩
    · rw [hentry]
      exact heq
    · rcases hres with hneg | ⟨hr0, hrlen, _⟩
      · exact Or.inl hneg
      · exact Or.inr ⟨hr0, hrlen⟩

/-- Witness for C8 on a concrete sorted list with an absent target. -/
theorem binary_search_trace_safe_witness :
    ∃ r tr, binary_search_trace ([10, 20, 30, 40, 50, 60, 70] : List Int) 65
        = some (r, tr)
      ∧ (∀ i ∈ tr, 0 ≤ i
          ∧ i < (([10, 20, 30, 40, 50, 60, 70] : List Int).length : Int))
      ∧ (r = -1 ∨ (0 ≤ r
          ∧ r < (([10, 20, 30, 40, 50, 60, 70] : List Int).length : Int))) :=
  binary_search_trace_safe ([10, 20, 30, 40, 50, 60, 70] : List Int) 65
    (by decide)

end JSnake
